import Mathlib

/-!
# Verification of the uni-schedule extraction / calendar-generation core

Shallow embedding of the two leaf components of the repository:

* `app/parser.py` — the timetable extractor (`parse_time_range`,
  `parse_programme_html`) working over the structure that the HTML
  soup queries deliver;
* `app/ical.py` — the calendar generator (`generate_ics` and its
  helpers `_next_date`, `is_holiday`, `esc`);
* `app/models.py` — the `Course` dataclass.

Python `datetime.date` values are embedded as proleptic-Gregorian
ordinals (`date.toordinal()`, a positive natural number; ordinal 1 is
0001-01-01, a Monday), `datetime.time` values as hour/minute/second
triples, and fallible Python code returns `Except PyErr`.
-/

namespace UniSchedule

/-- A Python exception class, as far as the embedded code distinguishes them. -/
inductive PyErr where
  | typeError
  | valueError
deriving DecidableEq, Repr

/-- Embeds `datetime.time` (microseconds are never used by the repository:
the parser builds times from `%H:%M` only, and `strftime('%H%M%S')` ignores
them). -/
structure PTime where
  hour : Nat
  minute : Nat
  second : Nat := 0
deriving DecidableEq, Repr

/-- Python `time` comparison: lexicographic on (hour, minute, second). -/
def ptLt (a b : PTime) : Prop :=
  a.hour < b.hour ∨ (a.hour = b.hour ∧
    (a.minute < b.minute ∨ (a.minute = b.minute ∧ a.second < b.second)))

instance (a b : PTime) : Decidable (ptLt a b) := by
  unfold ptLt; infer_instance

/-- `date.weekday()`: Monday = 0.  Ordinal 1 (0001-01-01) is a Monday in the
proleptic Gregorian calendar, so the weekday of ordinal `o` is `(o - 1) % 7`,
written `(o + 6) % 7` to stay in `Nat`. -/
def weekday (o : Nat) : Nat := (o + 6) % 7

/-- `datetime.date.isleap` (via `calendar.isleap`) for the Gregorian rules. -/
def isLeap (y : Nat) : Bool := y % 4 == 0 && (y % 100 != 0 || y % 400 == 0)

/-- Length of month `m` (1-based) in year `y`. -/
def daysInMonth (y m : Nat) : Nat :=
  [31, if isLeap y then 29 else 28, 31, 30, 31, 30, 31, 31, 30, 31, 30, 31].getD (m - 1) 0

/-- Number of days before January 1 of year `y` (as in `datetime._days_before_year`).
`(y-1)/100` never exceeds `(y-1)/4`, so the Gregorian alternating sum is grouped
to stay in `Nat`. -/
def daysBeforeYear (y : Nat) : Nat :=
  (y - 1) * 365 + ((y - 1) / 4 - (y - 1) / 100) + (y - 1) / 400

/-- Number of days in year `y` strictly before month `m` (1-based). -/
def daysBeforeMonth (y m : Nat) : Nat :=
  ((List.range (m - 1)).map (fun i => daysInMonth y (i + 1))).sum

/-- `date(y, m, d).toordinal()`. -/
def toOrdinal (y m d : Nat) : Nat := daysBeforeYear y + daysBeforeMonth y m + d

/-- Walk the months of year `y` to locate the month containing 0-based
day-of-year `doy` (the month-resolution step of `date.fromordinal`). -/
def pickMonth (y : Nat) : List Nat → Nat → Nat × Nat
  | [], rem => (12, rem + 1)
  | m :: ms, rem =>
    if rem < daysInMonth y m then (m, rem + 1) else pickMonth y ms (rem - daysInMonth y m)

/-- `date.fromordinal`: ordinal → (year, month, day), by the 400/100/4/1-year
division cascade of CPython's `_ord2ymd` followed by a month walk. -/
def ord2ymd (o : Nat) : Nat × Nat × Nat :=
  let n := o - 1
  let n400 := n / 146097
  let r400 := n % 146097
  let n100 := r400 / 36524
  let r100 := r400 % 36524
  let n4 := r100 / 1461
  let r4 := r100 % 1461
  let n1 := r4 / 365
  let r1 := r4 % 365
  let year := n400 * 400 + n100 * 100 + n4 * 4 + n1 + 1
  if n1 = 4 ∨ n100 = 4 then (year - 1, 12, 31)
  else
    let md := pickMonth year [1, 2, 3, 4, 5, 6, 7, 8, 9, 10, 11, 12] r1
    (year, md.1, md.2)

/-- Zero-pad to two digits (`%02d`, values below 100). -/
def pad2 (n : Nat) : String := if n < 10 then "0" ++ toString n else toString n

/-- Zero-pad to four digits (`%04d` / `%Y`, values below 10000). -/
def pad4 (n : Nat) : String :=
  if n < 10 then "000" ++ toString n
  else if n < 100 then "00" ++ toString n
  else if n < 1000 then "0" ++ toString n
  else toString n

/-- `d.strftime('%Y%m%d')`. -/
def fmtDate (o : Nat) : String :=
  let ymd := ord2ymd o
  pad4 ymd.1 ++ pad2 ymd.2.1 ++ pad2 ymd.2.2

/-- `t.strftime('%H%M%S')`. -/
def fmtTimeHMS (t : PTime) : String := pad2 t.hour ++ pad2 t.minute ++ pad2 t.second

/-- `datetime.combine(d, t).strftime('%Y%m%dT%H%M%S')` (ical.py lines 66–71). -/
def fmtDT (o : Nat) (t : PTime) : String := fmtDate o ++ "T" ++ fmtTimeHMS t

/-- Embeds ical.py line 116,
`hd.strftime("%Y%m%dT%H%M%S").replace("T000000", "T" + c.start.strftime("%H%M%S"))`:
`strftime` on a `date` renders the time directives as zeros, giving the digit
string `YYYYMMDDT000000`, whose only occurrence of `"T000000"` is the literal
`T` plus the trailing zeros (the date part is all digits), so the `replace`
rewrites exactly that suffix to `T` followed by the session's start time. -/
def exdateStamp (o : Nat) (t : PTime) : String := fmtDate o ++ "T" ++ fmtTimeHMS t

/-- The `Course` dataclass of `app/models.py` (lines 6–17).  These are exactly
the fields the dataclass declares, hence exactly the keywords its generated
`__init__` accepts. -/
structure Course where
  id : Int
  title : String
  day : String
  start : PTime
  end_ : PTime
  kind : String
  room : String
  instructors : List String := []
  original_html : Option String := none
  url : Option String := none
deriving DecidableEq, Repr

/-- The keyword names accepted by `Course.__init__` (the dataclass fields of
models.py lines 6–17, in order). -/
def courseInitKeywords : List String :=
  ["id", "title", "day", "start", "end", "kind", "room", "instructors",
   "original_html", "url"]

/-- Python call semantics for the generated dataclass constructor: a call whose
keyword set is contained in the declared fields constructs the record; a call
passing any unknown keyword raises `TypeError` before any field is assigned. -/
def callCourseInit (kwargs : List String) (c : Course) : Except PyErr Course :=
  if kwargs.all (fun k => courseInitKeywords.contains k) then .ok c
  else .error .typeError

/-- `WEEKDAY_INDEX` of ical.py lines 8–16, with `dict.get` as `List.lookup`. -/
def WEEKDAY_INDEX : List (String × Nat) :=
  [("Monday", 0), ("Tuesday", 1), ("Wednesday", 2), ("Thursday", 3),
   ("Friday", 4), ("Saturday", 5), ("Sunday", 6)]

/-- `_next_date` (ical.py lines 18–20): `start + ((target - start.weekday()) % 7)`
with Python's nonnegative `%` on a possibly negative difference. -/
def nextDate (s : Nat) (targetWeekday : Nat) : Nat :=
  s + (((targetWeekday : Int) - (weekday s : Int)) % 7).toNat

/-- ical.py line 33: `start_date - timedelta(days=start_date.weekday())`. -/
def baseMonday (o : Nat) : Nat := o - weekday o

/-- `is_holiday` (ical.py lines 41–45): membership in any inclusive range. -/
def is_holiday (hols : List (Nat × Nat)) (d : Nat) : Bool :=
  hols.any (fun se => decide (se.1 ≤ d ∧ d ≤ se.2))

/-- Largest range end among the holiday ranges (0 when there are none); every
holiday date is bounded by it, which bounds the holiday-skipping loop. -/
def maxEnd (hols : List (Nat × Nat)) : Nat :=
  hols.foldr (fun p m => max p.2 m) 0

/-- One run of consecutive holiday hits of the `while` loop of ical.py
lines 94–99: starting at `d` and stepping by 7 days, collect the visited
holiday dates until the first non-holiday date, which is returned as the next
teaching date.  `fuel` bounds the recursion; `maxEnd hols + 1` fuel is always
enough because holiday dates never exceed `maxEnd hols`. -/
def skipFuel (hols : List (Nat × Nat)) : Nat → Nat → Nat × List Nat
  | 0, d => (d, [])
  | fuel + 1, d =>
    if is_holiday hols d then
      let p := skipFuel hols fuel (d + 7)
      (p.1, d :: p.2)
    else (d, [])

/-- The holiday-skipping run with its sufficient fuel. -/
def skipHolidays (hols : List (Nat × Nat)) (d : Nat) : Nat × List Nat :=
  skipFuel hols (maxEnd hols + 1) d

/-- The full `while len(teaching_dates) < weeks` loop of ical.py lines 91–99:
walk forward one week at a time from `d`, classifying each visited date, until
`weeks` teaching dates have been collected.  Returns
(`teaching_dates`, `exdates`), both in visit order. -/
def walkWeeks (hols : List (Nat × Nat)) : Nat → Nat → List Nat × List Nat
  | _, 0 => ([], [])
  | d, w + 1 =>
    let p := skipHolidays hols d
    let q := walkWeeks hols (p.1 + 7) w
    (p.1 :: q.1, p.2 ++ q.2)

/-- `byday_map` of ical.py line 59. -/
def bydayMap : List String := ["MO", "TU", "WE", "TH", "FR", "SA", "SU"]

/-- One single-character-by-string replacement pass, the semantics of Python's
`str.replace(old, new)` when `old` is a single character. -/
def repChar (old : Char) (sub : List Char) (l : List Char) : List Char :=
  l.flatMap (fun c => if c = old then sub else [c])

/-- `esc` (ical.py lines 83–84):
`s.replace('\\', '\\\\').replace(';', '\\;').replace(',', '\\,')` applied in
that order (each Python source literal denotes the backslash-prefixed pair). -/
def esc (s : String) : String :=
  ⟨repChar ',' ['\\', ','] (repChar ';' ['\\', ';'] (repChar '\\' ['\\', '\\'] s.data))⟩

/-- The inverse substitution of the RFC 5545 text escaping: a backslash
followed by one of backslash/semicolon/comma denotes that character. -/
def unescChars : List Char → List Char
  | [] => []
  | ['\\'] => ['\\']
  | '\\' :: c2 :: r2 =>
    if c2 = '\\' ∨ c2 = ';' ∨ c2 = ',' then c2 :: unescChars r2
    else '\\' :: unescChars (c2 :: r2)
  | c :: r => c :: unescChars r

/-- The inverse substitution on strings. -/
def unesc (s : String) : String := ⟨unescChars s.data⟩

/-- `s.replace('\n', ' ')` (ical.py lines 73–74). -/
def nlToSpace (s : String) : String :=
  ⟨s.data.map (fun c => if c = '\n' then ' ' else c)⟩

/-- Python `sep.join(parts)`. -/
def pyJoin (sep : String) : List String → String
  | [] => ""
  | [a] => a
  | a :: rest => a ++ sep ++ pyJoin sep rest

/-- The `description` assembly of ical.py lines 75–81. -/
def descriptionOf (c : Course) : String :=
  let instructors := pyJoin ", " c.instructors
  let parts :=
    ["Type: " ++ c.kind, "Room: " ++ c.room]
      ++ (if instructors ≠ "" then ["Instructors: " ++ instructors] else [])
      ++ (match c.url with
          | some u => if u ≠ "" then ["Link: " ++ u] else []
          | none => [])
  pyJoin "\n" parts

/-- The ambient nondeterminism of a `generate_ics` call: `datetime.utcnow()`
formatted once before the loop (line 34), and the hex prefix that
`uuid.uuid4().hex[:8]` yields at the `i`-th event (line 68). -/
structure GenParams where
  nowStamp : String
  uuidHex : Nat → String

/-- The Python tuple key `(c.day, c.start, c.title)` of ical.py line 57,
compared as Python compares it: lexicographically, strings by code point and
times componentwise. -/
def courseKeyLe (a b : Course) : Prop :=
  a.day < b.day ∨ (a.day = b.day ∧
    (ptLt a.start b.start ∨ (a.start = b.start ∧ a.title ≤ b.title)))

instance (a b : Course) : Decidable (courseKeyLe a b) := by
  unfold courseKeyLe; infer_instance

/-- `sorted(courses, key=lambda c: (c.day, c.start, c.title))` (line 57). -/
def sortCourses (courses : List Course) : List Course :=
  courses.mergeSort (fun a b => decide (courseKeyLe a b))

/-- The per-course body of the `for` loop of ical.py lines 61–117: the emitted
lines for course `c` (empty when `WEEKDAY_INDEX.get(c.day)` is `None`, line
63–64's `continue`).  `i` is the position of the course in the sorted list
(it indexes the `uuid4` call). -/
def eventLines (ps : GenParams) (baseM weeks : Nat) (hols : List (Nat × Nat))
    (i : Nat) (c : Course) : List String :=
  match WEEKDAY_INDEX.lookup c.day with
  | none => []
  | some wd =>
    let eventDate := nextDate baseM wd
    let uid := toString c.id ++ "-" ++ ps.uuidHex i ++ "@uni-programme"
    let byday := bydayMap.getD wd ""
    let summary := nlToSpace c.title
    let location := nlToSpace c.room
    let description := descriptionOf c
    let walked := walkWeeks hols eventDate weeks
    let exdates := walked.2
    let totalOccurrences := weeks + exdates.length
    ["BEGIN:VEVENT",
     "UID:" ++ uid,
     "DTSTAMP:" ++ ps.nowStamp,
     "DTSTART:" ++ fmtDT eventDate c.start,
     "DTEND:" ++ fmtDT eventDate c.end_,
     "SUMMARY:" ++ esc summary,
     "LOCATION:" ++ esc location,
     "DESCRIPTION:" ++ esc description,
     "RRULE:FREQ=WEEKLY;COUNT=" ++ toString totalOccurrences ++ ";BYDAY=" ++ byday]
      ++ exdates.map (fun hd => "EXDATE:" ++ exdateStamp hd c.start)
      ++ ["END:VEVENT"]

/-- One loop iteration together with its effect on the session it visits: the
loop body (ical.py lines 61–117) reads `c`'s attributes and binds only fresh
locals — it contains no assignment to `c` or to the list — so the session
comes back unchanged in the second component. -/
def processCourse (ps : GenParams) (baseM weeks : Nat) (hols : List (Nat × Nat))
    (i : Nat) (c : Course) : List String × Course :=
  (eventLines ps baseM weeks hols i c, c)

/-- The whole `for c in courses_list` loop: emitted event lines plus the list
of sessions as the loop leaves them. -/
def icsBody (ps : GenParams) (baseM weeks : Nat) (hols : List (Nat × Nat)) :
    List Course → Nat → List String × List Course
  | [], _ => ([], [])
  | c :: rest, i =>
    let p := processCourse ps baseM weeks hols i c
    let q := icsBody ps baseM weeks hols rest (i + 1)
    (p.1 ++ q.1, p.2 :: q.2)

/-- The fixed preamble of ical.py lines 47–54. -/
def headerLines (tz : String) : List String :=
  ["BEGIN:VCALENDAR",
   "PRODID:-//Uni Programme Export//EN",
   "VERSION:2.0",
   "CALSCALE:GREGORIAN",
   "METHOD:PUBLISH",
   "X-WR-TIMEZONE:" ++ tz]

/-- ical.py lines 36–39: `holidays=None` defaults to the Christmas/New Year
break 2025-12-23 … 2026-01-06 (inclusive). -/
def resolveHolidays (holidays : Option (List (Nat × Nat))) : List (Nat × Nat) :=
  holidays.getD [(toOrdinal 2025 12 23, toOrdinal 2026 1 6)]

/-- The complete `lines` list of `generate_ics` before joining. -/
def icsLines (ps : GenParams) (courses : List Course) (startDate weeks : Nat)
    (tz : String) (holidays : Option (List (Nat × Nat))) : List String :=
  headerLines tz
    ++ (icsBody ps (baseMonday startDate) weeks (resolveHolidays holidays)
          (sortCourses courses) 0).1
    ++ ["END:VCALENDAR"]

/-- `generate_ics` (ical.py lines 22–120): `'\r\n'.join(lines) + '\r\n'`. -/
def generate_ics (ps : GenParams) (courses : List Course) (startDate weeks : Nat)
    (tz : String) (holidays : Option (List (Nat × Nat))) : String :=
  pyJoin "\r\n" (icsLines ps courses startDate weeks tz holidays) ++ "\r\n"

/-! ## The timetable extractor (app/parser.py) -/

/-- Split a character list at every occurrence of `sep` — the semantics of
Python's `str.split(sep)` for a one-character separator (parser.py lines
22–25 split on an en dash or a hyphen, both single characters). -/
def splitOnChar (sep : Char) : List Char → List (List Char)
  | [] => [[]]
  | c :: r =>
    if c = sep then [] :: splitOnChar sep r
    else
      match splitOnChar sep r with
      | [] => [[c]]
      | t :: ts => (c :: t) :: ts

/-- Python `str.strip()`: drop leading and trailing whitespace. -/
def stripChars (l : List Char) : List Char :=
  ((l.dropWhile Char.isWhitespace).reverse.dropWhile Char.isWhitespace).reverse

/-- Digit run to its decimal value. -/
def digitsToNat (l : List Char) : Nat :=
  l.foldl (fun acc c => acc * 10 + (c.toNat - 48)) 0

/-- `datetime.strptime(s, '%H:%M').time()`: one or two digits for the hour
(0–23), a colon, one or two digits for the minute (0–59), nothing else;
anything different raises `ValueError` (modelled as `none`). -/
def parseHM (l : List Char) : Option PTime :=
  match splitOnChar ':' l with
  | [hs, ms] =>
    if hs ≠ [] ∧ hs.length ≤ 2 ∧ hs.all Char.isDigit
        ∧ ms ≠ [] ∧ ms.length ≤ 2 ∧ ms.all Char.isDigit then
      let h := digitsToNat hs
      let m := digitsToNat ms
      if h ≤ 23 ∧ m ≤ 59 then some ⟨h, m, 0⟩ else none
    else none
  | _ => none

/-- `parse_time_range` (parser.py lines 20–31): split on an en dash if one is
present, else on a hyphen; strip both parts; demand exactly two parts; parse
each as `%H:%M`.  Failures raise `ValueError`. -/
def parse_time_range (s : String) : Except PyErr (PTime × PTime) :=
  let parts :=
    (if s.data.contains '–' then splitOnChar '–' s.data
     else splitOnChar '-' s.data).map stripChars
  match parts with
  | [p1, p2] =>
    match parseHM p1, parseHM p2 with
    | some t1, some t2 => .ok (t1, t2)
    | _, _ => .error .valueError
  | _ => .error .valueError

/-- `DAY_MAP` (parser.py lines 9–15). -/
def DAY_MAP : List (String × String) :=
  [("Δευτέρα", "Monday"), ("Τρίτη", "Tuesday"), ("Τετάρτη", "Wednesday"),
   ("Πέμπτη", "Thursday"), ("Παρασκευή", "Friday")]

/-- An `<a>` element inside a cell: its stripped text and its `href`
attribute (`None` when the attribute is absent). -/
structure ALink where
  text : String
  href : Option String := none
deriving DecidableEq, Repr

/-- One `<td>` of a timetable row, as the extractor queries it:
`get_text(strip=True)`, the first embedded `<a>` (if any), and the stripped
texts of all `li a` descendants. -/
structure Cell where
  text : String
  link : Option ALink := none
  liLinks : List String := []
deriving DecidableEq, Repr

/-- One `<tr>`: its cells and its serialized source (`str(tr)`). -/
structure Row where
  cells : List Cell
  html : String := ""
deriving DecidableEq, Repr

/-- One `div.tab_content`, with the results of the soup queries the extractor
performs on it already resolved (the queries are BeautifulSoup library calls
on the input document, not logic of this repository):

* `tabLabel` — `tab_day_map.get(tab_id, '')`, the text of the `<a>` whose
  `href` points at this tab (parser.py lines 50–59, 65), `""` when absent;
* `greekDay` — the stripped text of the `a#` element named by
  `aria-labelledby` (lines 67–69), `""` when absent;
* `headings` — each `h2`–`h5` heading's stripped text paired with the rows of
  its `find_next('table', class_='courses_timetable')` (`none` when no such
  table follows), rows already resolved per line 82
  (`tr.sbody` or all `tr` minus the first);
* `rows` — the fallback single-table rows of lines 120–122. -/
structure Tab where
  tabLabel : String := ""
  greekDay : String := ""
  headings : List (String × Option (List Row)) := []
  rows : List Row := []
deriving DecidableEq, Repr

/-- The shared row-processing body of both branches of
`parse_programme_html` (parser.py lines 83–113 and 123–154): skip rows with
fewer than five cells; skip rows whose time range fails to parse (the
`try`/`except` covers only `parse_time_range`); then construct the record by
calling `Course(...)` with the keywords of lines 99–111 / 140–152 — which
include `year`, a keyword the dataclass of models.py does not declare. -/
def parseRow (day : String) (cid : Nat) (r : Row) : Except PyErr (Option Course) :=
  match r.cells with
  | c0 :: c1 :: c2 :: c3 :: c4 :: _ =>
    match parse_time_range c0.text with
    | .error _ => .ok none
    | .ok (start, end_) =>
      let title := match c1.link with | some al => al.text | none => c1.text
      let url := match c1.link with | some al => al.href | none => none
      let kind := c2.text
      let room := c3.text
      let instructors := if c4.liLinks ≠ [] then c4.liLinks else [c4.text]
      match callCourseInit
          ["id", "title", "day", "start", "end", "kind", "room", "instructors",
           "original_html", "url", "year"]
          { id := (cid : Int), title := title, day := day, start := start,
            end_ := end_, kind := kind, room := room,
            instructors := instructors, original_html := some r.html,
            url := url } with
      | .ok c => .ok (some c)
      | .error e => .error e
  | _ => .ok none

/-- The inner `for tr in rows` loop, threading the monotonically increasing
record id; uncaught exceptions propagate. -/
def parseRows (day : String) : List Row → Nat → Except PyErr (List Course × Nat)
  | [], cid => .ok ([], cid)
  | r :: rs, cid =>
    match parseRow day cid r with
    | .error e => .error e
    | .ok none => parseRows day rs cid
    | .ok (some c) =>
      match parseRows day rs (cid + 1) with
      | .error e => .error e
      | .ok (cs, cid') => .ok (c :: cs, cid')

/-- The `for h in day_headings` loop of the year-based branch (parser.py
lines 76–113): headings whose `find_next` table is missing are skipped
(line 80–81's `continue`); each table's rows run through `parseRow`. -/
def parseHeadings : List (String × Option (List Row)) → Nat →
    Except PyErr (List Course × Nat)
  | [], cid => .ok ([], cid)
  | (label, tbl) :: rest, cid =>
    let day := (DAY_MAP.lookup label).getD label
    match tbl with
    | none => parseHeadings rest cid
    | some rows =>
      match parseRows day rows cid with
      | .error e => .error e
      | .ok (cs, cid') =>
        match parseHeadings rest cid' with
        | .error e => .error e
        | .ok (cs', cid'') => .ok (cs ++ cs', cid'')

/-- One `div.tab_content` (parser.py lines 63–154): if the tab contains day
headings that are `DAY_MAP` keys, parse each heading's table (year-based
page); otherwise resolve the tab's day label (aria label, falling back to the
href-map label) and parse the tab's single table (week-based page). -/
def parseTab (t : Tab) (cid : Nat) : Except PyErr (List Course × Nat) :=
  let dayHeadings := t.headings.filter (fun p => (DAY_MAP.lookup p.1).isSome)
  if dayHeadings ≠ [] then
    parseHeadings dayHeadings cid
  else
    let greekDay := if t.greekDay = "" && t.tabLabel ≠ "" then t.tabLabel else t.greekDay
    let day := (DAY_MAP.lookup greekDay).getD greekDay
    parseRows day t.rows cid

/-- `parse_programme_html` (parser.py lines 47–155), over the resolved soup
structure: every tab in document order, record ids starting at 1. -/
def parseTabs : List Tab → Nat → Except PyErr (List Course)
  | [], _ => .ok []
  | t :: ts, cid =>
    match parseTab t cid with
    | .error e => .error e
    | .ok (cs, cid') =>
      match parseTabs ts cid' with
      | .error e => .error e
      | .ok cs' => .ok (cs ++ cs')

/-- The extractor entry point. -/
def parse_programme_html (tabs : List Tab) : Except PyErr (List Course) :=
  parseTabs tabs 1

/-! ## Concrete instances used to evaluate the definitions -/

/-- A fixed draw of the generator's ambient nondeterminism. -/
def psW : GenParams := ⟨"20250101T000000Z", fun _ => "00000000"⟩

/-- A Monday 09:00–11:00 session. -/
def courseMondayW : Course :=
  { id := 1, title := "Algo", day := "Monday", start := ⟨9, 0, 0⟩,
    end_ := ⟨11, 0, 0⟩, kind := "Lecture", room := "B3", instructors := ["X"] }

/-- A session whose day label is not a recognized weekday name. -/
def courseUnknownW : Course :=
  { id := 3, title := "Mystery", day := "Someday", start := ⟨9, 0, 0⟩,
    end_ := ⟨10, 0, 0⟩, kind := "Lab", room := "C1", instructors := [] }

/-- A single-tab page holding one well-formed timetable row. -/
def tabMondayValid : Tab :=
  { greekDay := "Δευτέρα",
    rows := [{ cells := [⟨"09:00–11:00", none, []⟩, ⟨"Intro", none, []⟩,
                         ⟨"Lecture", none, []⟩, ⟨"Room 1", none, []⟩,
                         ⟨"Staff", none, []⟩] }] }

/-! ## Helper lemmas -/

theorem unescChars_cons_ne (c : Char) (t : List Char) (h : c ≠ '\\') :
    unescChars (c :: t) = c :: unescChars t := by
  cases t <;> simp [unescChars, h]

theorem unescChars_pair (x : Char) (t : List Char)
    (h : x = '\\' ∨ x = ';' ∨ x = ',') :
    unescChars ('\\' :: x :: t) = x :: unescChars t := by
  simp [unescChars, h]

theorem repChar_cons (old : Char) (sub : List Char) (c : Char) (l : List Char) :
    repChar old sub (c :: l) = (if c = old then sub else [c]) ++ repChar old sub l := by
  simp [repChar]

theorem repChar_append (old : Char) (sub : List Char) (l₁ l₂ : List Char) :
    repChar old sub (l₁ ++ l₂) = repChar old sub l₁ ++ repChar old sub l₂ := by
  simp [repChar]

/-- The three successive replacement passes of `esc`, fused head-first: each
original character contributes its escaped form independently. -/
theorem esc_data_cons (c : Char) (l : List Char) :
    repChar ',' ['\\', ','] (repChar ';' ['\\', ';'] (repChar '\\' ['\\', '\\'] (c :: l)))
      = (if c = '\\' then ['\\', '\\']
         else if c = ';' then ['\\', ';']
         else if c = ',' then ['\\', ','] else [c])
        ++ repChar ',' ['\\', ','] (repChar ';' ['\\', ';'] (repChar '\\' ['\\', '\\'] l)) := by
  by_cases h1 : c = '\\'
  · subst h1; simp [repChar_cons, repChar_append, repChar]
  · by_cases h2 : c = ';'
    · subst h2; simp [repChar_cons, repChar_append, repChar]
    · by_cases h3 : c = ','
      · subst h3; simp [repChar_cons, repChar_append, repChar]
      · simp [repChar_cons, repChar_append, repChar, h1, h2, h3]

theorem unescChars_escChars (l : List Char) :
    unescChars (repChar ',' ['\\', ','] (repChar ';' ['\\', ';']
      (repChar '\\' ['\\', '\\'] l))) = l := by
  induction l with
  | nil => simp [repChar, unescChars]
  | cons c l ih =>
    rw [esc_data_cons]
    by_cases h1 : c = '\\'
    · subst h1
      simpa [unescChars_pair] using ih
    · by_cases h2 : c = ';'
      · subst h2
        simpa [unescChars_pair] using ih
      · by_cases h3 : c = ','
        · subst h3
          simpa [unescChars_pair] using ih
        · simp only [h1, h2, h3, if_false, List.singleton_append]
          rw [unescChars_cons_ne c _ h1, ih]

/-- `pyJoin sep l ++ sep` terminates every line of a nonempty list with the
separator. -/
theorem pyJoin_term (sep : String) :
    ∀ (l : List String), l ≠ [] →
      pyJoin sep l ++ sep = l.foldr (fun s acc => s ++ sep ++ acc) ""
  | [], h => absurd rfl h
  | [a], _ => by simp [pyJoin, String.append_assoc, String.append_empty]
  | a :: b :: t, _ => by
    have ih := pyJoin_term sep (b :: t) (by simp)
    simp only [pyJoin, List.foldr_cons] at ih ⊢
    rw [String.append_assoc, ih]

/-! ## Claims -/

/-- **C1.** The claim says extraction never lets a row-level failure
propagate: every failure only skips that row.  The code violates it: for any
input containing one well-formed row, the record construction of parser.py
lines 99–111 / 140–152 passes the keyword `year`, which the `Course`
dataclass of models.py (lines 6–17) does not declare, so the generated
`__init__` raises `TypeError` — uncaught, since the `try`/`except` of lines
88–91 / 128–131 covers only `parse_time_range`.  (The spec's tolerance policy
is clearly the intent: routes.py reads `c.year` throughout, and the
repository's own test asserts that parsing its saved page yields records.)
Here the extractor is evaluated at a single-tab page holding one well-formed
row and raises. -/
theorem extraction_raises_on_wellformed_row :
    parse_programme_html [tabMondayValid] = .error PyErr.typeError := by
  rfl

/-- **C8.** Free-text escaping: `esc` escapes every backslash, semicolon and
comma, the inverse substitution recovers the original exactly
(`unesc (esc s) = s` for all `s`), and the generator emits the summary,
location and description fields through `esc`. -/
theorem escaping_round_trips :
    (∀ s : String, unesc (esc s) = s)
    ∧ (∀ (ps : GenParams) (baseM weeks : Nat) (hols : List (Nat × Nat))
        (i : Nat) (c : Course) (wd : Nat),
        WEEKDAY_INDEX.lookup c.day = some wd →
          ("SUMMARY:" ++ esc (nlToSpace c.title)) ∈ eventLines ps baseM weeks hols i c
          ∧ ("LOCATION:" ++ esc (nlToSpace c.room)) ∈ eventLines ps baseM weeks hols i c
          ∧ ("DESCRIPTION:" ++ esc (descriptionOf c)) ∈ eventLines ps baseM weeks hols i c) := by
  constructor
  · intro s
    have h := unescChars_escChars s.data
    apply congrArg String.mk at h
    cases s
    exact h
  · intro ps baseM weeks hols i c wd h
    unfold eventLines
    rw [h]
    refine ⟨?_, ?_, ?_⟩ <;> simp

/-- Closed instance of the conditional part of `escaping_round_trips`. -/
theorem escaping_round_trips_witness :
    ("SUMMARY:" ++ esc (nlToSpace courseMondayW.title))
      ∈ eventLines psW 1 1 [] 0 courseMondayW :=
  ((escaping_round_trips.2 psW 1 1 [] 0 courseMondayW 0 (by decide)).1)

/-- **C9.** The generation loop never mutates the sessions it visits: each
loop iteration's effect on its session (second component of `processCourse`)
is the identity, so the session list comes out of the loop exactly as it went
in — same length, same order, every field of every session unchanged. -/
theorem generation_preserves_sessions (ps : GenParams) (baseM weeks : Nat)
    (hols : List (Nat × Nat)) :
    ∀ (l : List Course) (i : Nat), (icsBody ps baseM weeks hols l i).2 = l := by
  intro l
  induction l with
  | nil => intro i; rfl
  | cons c rest ih => intro i; simp [icsBody, processCourse, ih]

/-- **C7.** Envelope: the line list always opens with `BEGIN:VCALENDAR` and
closes with `END:VCALENDAR`; the output string is every line terminated with
CRLF (including the final line); and zero input sessions yield exactly the
fixed header plus the closing envelope line. -/
theorem envelope_lines (ps : GenParams) (courses : List Course)
    (startDate weeks : Nat) (tz : String) (holidays : Option (List (Nat × Nat))) :
    (icsLines ps courses startDate weeks tz holidays).head? = some "BEGIN:VCALENDAR"
    ∧ (icsLines ps courses startDate weeks tz holidays).getLast? = some "END:VCALENDAR"
    ∧ generate_ics ps courses startDate weeks tz holidays
        = (icsLines ps courses startDate weeks tz holidays).foldr
            (fun l acc => l ++ "\r\n" ++ acc) ""
    ∧ icsLines ps [] startDate weeks tz holidays = headerLines tz ++ ["END:VCALENDAR"] := by
  refine ⟨?_, ?_, ?_, ?_⟩
  · simp [icsLines, headerLines]
  · unfold icsLines
    exact List.getLast?_concat _
  · exact pyJoin_term "\r\n" _ (by simp [icsLines, headerLines])
  · simp [icsLines, sortCourses, icsBody]

/-- **C5.** Start-date normalization and anchoring: `baseMonday` is the
unique Monday `m` with `m ≤ start ≤ m + 6`, and `_next_date` from it is the
unique date of that week with the session's weekday — equal to `m` itself for
Monday sessions. -/
theorem monday_anchor (o wd : Nat) (ho : 1 ≤ o) (hwd : wd < 7) :
    weekday (baseMonday o) = 0
    ∧ baseMonday o ≤ o ∧ o ≤ baseMonday o + 6
    ∧ (∀ m, weekday m = 0 → m ≤ o → o ≤ m + 6 → m = baseMonday o)
    ∧ baseMonday o ≤ nextDate (baseMonday o) wd
    ∧ nextDate (baseMonday o) wd ≤ baseMonday o + 6
    ∧ weekday (nextDate (baseMonday o) wd) = wd
    ∧ (∀ d, baseMonday o ≤ d → d ≤ baseMonday o + 6 → weekday d = wd →
        d = nextDate (baseMonday o) wd)
    ∧ (wd = 0 → nextDate (baseMonday o) wd = baseMonday o) := by
  simp only [nextDate, baseMonday, weekday]
  refine ⟨by omega, by omega, by omega, fun m h1 h2 h3 => by omega, by omega,
    by omega, by omega, fun d h1 h2 h3 => by omega, fun h => by omega⟩

/-- Closed instance of `monday_anchor` at a concrete Wednesday ordinal. -/
theorem monday_anchor_witness :
    weekday (baseMonday 739262) = 0
    ∧ weekday (nextDate (baseMonday 739262) 3) = 3 :=
  ⟨(monday_anchor 739262 3 (by decide) (by decide)).1,
   (monday_anchor 739262 3 (by decide) (by decide)).2.2.2.2.2.2.1⟩

theorem snd_le_maxEnd (hols : List (Nat × Nat)) (p : Nat × Nat) (hp : p ∈ hols) :
    p.2 ≤ maxEnd hols := by
  induction hols with
  | nil => cases hp
  | cons q rest ih =>
    rcases List.mem_cons.mp hp with h | h
    · subst h; simp [maxEnd]
    · have := ih h
      simp only [maxEnd, List.foldr_cons] at this ⊢
      omega

theorem is_holiday_le_maxEnd (hols : List (Nat × Nat)) (d : Nat)
    (h : is_holiday hols d = true) : d ≤ maxEnd hols := by
  rw [is_holiday, List.any_eq_true] at h
  obtain ⟨p, hp, hd⟩ := h
  rw [decide_eq_true_iff] at hd
  have := snd_le_maxEnd hols p hp
  omega

/-- Specification of one holiday-skipping run, given enough fuel: the
returned teaching date is not a holiday and sits `7 · (skipped count)` days
after the start, and every skipped date is a holiday on the weekly walk. -/
theorem skipFuel_spec (hols : List (Nat × Nat)) :
    ∀ (fuel d : Nat), maxEnd hols + 1 - d ≤ fuel →
      is_holiday hols (skipFuel hols fuel d).1 = false
      ∧ (skipFuel hols fuel d).1 = d + 7 * (skipFuel hols fuel d).2.length
      ∧ (∀ e ∈ (skipFuel hols fuel d).2,
          is_holiday hols e = true ∧ ∃ k, e = d + 7 * k) := by
  intro fuel
  induction fuel with
  | zero =>
    intro d hd
    have hnot : is_holiday hols d = false := by
      by_contra hc
      have ht : is_holiday hols d = true := by
        revert hc; cases is_holiday hols d <;> simp
      have := is_holiday_le_maxEnd hols d ht
      omega
    simp [skipFuel, hnot]
  | succ fuel ih =>
    intro d hd
    by_cases h : is_holiday hols d = true
    · have hle := is_holiday_le_maxEnd hols d h
      obtain ⟨ih1, ih2, ih3⟩ := ih (d + 7) (by omega)
      simp only [skipFuel, h, if_true]
      refine ⟨ih1, by simp [List.length_cons]; omega, ?_⟩
      intro e he
      rcases List.mem_cons.mp he with rfl | he
      · exact ⟨h, 0, by omega⟩
      · obtain ⟨hh, k, hk⟩ := ih3 e he
        exact ⟨hh, k + 1, by omega⟩
    · have h' : is_holiday hols d = false := by
        revert h; cases is_holiday hols d <;> simp
      simp [skipFuel, h']

theorem skipHolidays_spec (hols : List (Nat × Nat)) (d : Nat) :
    is_holiday hols (skipHolidays hols d).1 = false
    ∧ (skipHolidays hols d).1 = d + 7 * (skipHolidays hols d).2.length
    ∧ (∀ e ∈ (skipHolidays hols d).2,
        is_holiday hols e = true ∧ ∃ k, e = d + 7 * k) :=
  skipFuel_spec hols (maxEnd hols + 1) d (by omega)

/-- Specification of the whole weekly walk (ical.py lines 91–99): exactly `w`
teaching dates, none a holiday; every exception date is a holiday lying on
the weekly grid through `d`. -/
theorem walkWeeks_spec (hols : List (Nat × Nat)) :
    ∀ (w d : Nat),
      (walkWeeks hols d w).1.length = w
      ∧ (∀ t ∈ (walkWeeks hols d w).1, is_holiday hols t = false)
      ∧ (∀ e ∈ (walkWeeks hols d w).2,
          is_holiday hols e = true ∧ ∃ k, e = d + 7 * k) := by
  intro w
  induction w with
  | zero => intro d; simp [walkWeeks]
  | succ w ih =>
    intro d
    obtain ⟨h1, h2, h3⟩ := skipHolidays_spec hols d
    obtain ⟨ih1, ih2, ih3⟩ := ih ((skipHolidays hols d).1 + 7)
    simp only [walkWeeks]
    refine ⟨by simp [ih1], ?_, ?_⟩
    · intro t ht
      rcases List.mem_cons.mp ht with rfl | ht
      · exact h1
      · exact ih2 t ht
    · intro e he
      rcases List.mem_append.mp he with he | he
      · exact h3 e he
      · obtain ⟨hh, k, hk⟩ := ih3 e he
        exact ⟨hh, k + (skipHolidays hols d).2.length + 1, by omega⟩

/-- **C2.** For a session with a known weekday and `weeks ≥ 1`, the walk from
the anchor finds exactly `weeks` non-holiday dates; the emitted `RRULE` has
`COUNT = weeks + (number of holiday dates encountered)`, and each such
holiday date yields exactly one `EXDATE` line carrying that date (same
weekday as the anchor) at the session's start time. -/
theorem recurrence_count_and_exdates (ps : GenParams) (baseM weeks : Nat)
    (hols : List (Nat × Nat)) (i : Nat) (c : Course) (wd : Nat)
    (hwd : WEEKDAY_INDEX.lookup c.day = some wd) (_hw : 1 ≤ weeks) :
    (walkWeeks hols (nextDate baseM wd) weeks).1.length = weeks
    ∧ (∀ t ∈ (walkWeeks hols (nextDate baseM wd) weeks).1,
        is_holiday hols t = false)
    ∧ (∀ e ∈ (walkWeeks hols (nextDate baseM wd) weeks).2,
        is_holiday hols e = true ∧ weekday e = weekday (nextDate baseM wd))
    ∧ eventLines ps baseM weeks hols i c =
        ["BEGIN:VEVENT",
         "UID:" ++ (toString c.id ++ "-" ++ ps.uuidHex i ++ "@uni-programme"),
         "DTSTAMP:" ++ ps.nowStamp,
         "DTSTART:" ++ fmtDT (nextDate baseM wd) c.start,
         "DTEND:" ++ fmtDT (nextDate baseM wd) c.end_,
         "SUMMARY:" ++ esc (nlToSpace c.title),
         "LOCATION:" ++ esc (nlToSpace c.room),
         "DESCRIPTION:" ++ esc (descriptionOf c),
         "RRULE:FREQ=WEEKLY;COUNT="
           ++ toString (weeks + (walkWeeks hols (nextDate baseM wd) weeks).2.length)
           ++ ";BYDAY=" ++ bydayMap.getD wd ""]
        ++ (walkWeeks hols (nextDate baseM wd) weeks).2.map
             (fun hd => "EXDATE:" ++ exdateStamp hd c.start)
        ++ ["END:VEVENT"] := by
  obtain ⟨h1, h2, h3⟩ := walkWeeks_spec hols weeks (nextDate baseM wd)
  refine ⟨h1, h2, ?_, ?_⟩
  · intro e he
    obtain ⟨hh, k, hk⟩ := h3 e he
    refine ⟨hh, ?_⟩
    subst hk
    simp only [weekday]
    omega
  · unfold eventLines
    rw [hwd]

/-- Closed instance of `recurrence_count_and_exdates`: a Monday session,
start week 2025-12-22, three teaching weeks over the default holiday break. -/
theorem recurrence_count_and_exdates_witness :
    (walkWeeks (resolveHolidays none)
      (nextDate (baseMonday (toOrdinal 2025 12 22)) 0) 3).1.length = 3 :=
  (recurrence_count_and_exdates psW (baseMonday (toOrdinal 2025 12 22)) 3
    (resolveHolidays none) 0 courseMondayW 0 (by decide) (by decide)).1

/-- A string whose first character is not `B` is not the line
`BEGIN:VEVENT`. -/
theorem ne_bv_of_head (x : String) (c : Char) (hc : c ≠ 'B')
    (hx : x.data.head? = some c) : (x == "BEGIN:VEVENT") = false := by
  rw [beq_eq_false_iff_ne]
  intro h
  apply hc
  rw [h] at hx
  have hB : ("BEGIN:VEVENT" : String).data.head? = some 'B' := rfl
  rw [hB] at hx
  injection hx with hval
  exact hval.symm

/-- Bridge from the `= false` form to `countP … = 0`. -/
theorem countP_zero_of_all_false (L : List String)
    (hL : ∀ x ∈ L, (x == "BEGIN:VEVENT") = false) :
    L.countP (fun s => s == "BEGIN:VEVENT") = 0 := by
  apply List.countP_eq_zero.mpr
  intro a ha
  simp [hL a ha]

theorem countP_eventLines (ps : GenParams) (baseM weeks : Nat)
    (hols : List (Nat × Nat)) (i : Nat) (c : Course) :
    (eventLines ps baseM weeks hols i c).countP (fun s => s == "BEGIN:VEVENT")
      = if (WEEKDAY_INDEX.lookup c.day).isSome then 1 else 0 := by
  cases h : WEEKDAY_INDEX.lookup c.day with
  | none => simp [eventLines, h]
  | some wd =>
    unfold eventLines
    rw [h]
    simp only [Option.isSome_some, if_true]
    have h1 := ne_bv_of_head
      ("UID:" ++ (toString c.id ++ "-" ++ ps.uuidHex i ++ "@uni-programme"))
      'U' (by decide) rfl
    have h2 := ne_bv_of_head ("DTSTAMP:" ++ ps.nowStamp) 'D' (by decide) rfl
    have h3 := ne_bv_of_head ("DTSTART:" ++ fmtDT (nextDate baseM wd) c.start)
      'D' (by decide) rfl
    have h4 := ne_bv_of_head ("DTEND:" ++ fmtDT (nextDate baseM wd) c.end_)
      'D' (by decide) rfl
    have h5 := ne_bv_of_head ("SUMMARY:" ++ esc (nlToSpace c.title))
      'S' (by decide) rfl
    have h6 := ne_bv_of_head ("LOCATION:" ++ esc (nlToSpace c.room))
      'L' (by decide) rfl
    have h7 := ne_bv_of_head ("DESCRIPTION:" ++ esc (descriptionOf c))
      'D' (by decide) rfl
    have h8 := ne_bv_of_head
      ("RRULE:FREQ=WEEKLY;COUNT="
        ++ toString (weeks + (walkWeeks hols (nextDate baseM wd) weeks).2.length)
        ++ ";BYDAY=" ++ bydayMap.getD wd "") 'R' (by decide) rfl
    have hmap : ((walkWeeks hols (nextDate baseM wd) weeks).2.map
        (fun hd => "EXDATE:" ++ exdateStamp hd c.start)).countP
          (fun s => s == "BEGIN:VEVENT") = 0 := by
      apply countP_zero_of_all_false
      intro x hx
      obtain ⟨hd, _, rfl⟩ := List.mem_map.mp hx
      exact ne_bv_of_head ("EXDATE:" ++ exdateStamp hd c.start) 'E' (by decide) rfl
    have hEND : (("END:VEVENT" : String) == "BEGIN:VEVENT") = false := by decide
    have hBEG : (("BEGIN:VEVENT" : String) == "BEGIN:VEVENT") = true := by decide
    simp only [List.countP_append, List.countP_cons, List.countP_nil, hmap,
      h1, h2, h3, h4, h5, h6, h7, h8, hEND, hBEG, if_true, if_false,
      Bool.false_eq_true, Nat.add_zero, Nat.zero_add]

theorem countP_icsBody (ps : GenParams) (baseM weeks : Nat)
    (hols : List (Nat × Nat)) :
    ∀ (l : List Course) (i : Nat),
      ((icsBody ps baseM weeks hols l i).1).countP (fun s => s == "BEGIN:VEVENT")
        = l.countP (fun c => (WEEKDAY_INDEX.lookup c.day).isSome) := by
  intro l
  induction l with
  | nil => intro i; rfl
  | cons c rest ih =>
    intro i
    simp only [icsBody, processCourse]
    rw [List.countP_append, countP_eventLines, ih (i + 1), List.countP_cons]
    cases (WEEKDAY_INDEX.lookup c.day).isSome <;> simp <;> omega

theorem countP_headerLines (tz : String) :
    (headerLines tz).countP (fun s => s == "BEGIN:VEVENT") = 0 := by
  apply countP_zero_of_all_false
  intro x hx
  simp only [headerLines, List.mem_cons, List.not_mem_nil, or_false] at hx
  rcases hx with rfl | rfl | rfl | rfl | rfl | rfl
  · decide
  · decide
  · decide
  · decide
  · decide
  · exact ne_bv_of_head ("X-WR-TIMEZONE:" ++ tz) 'X' (by decide) rfl

/-- **C6.** Sessions whose day label is not a recognized weekday contribute
no event block (their loop iteration emits nothing), and every other session
contributes exactly one event block: the number of `BEGIN:VEVENT` lines in
the output equals the number of input sessions with a recognized weekday.
(The embedded generator is a total function: generation never raises.) -/
theorem unknown_weekday_skipped (ps : GenParams) (courses : List Course)
    (startDate weeks : Nat) (tz : String)
    (holidays : Option (List (Nat × Nat))) :
    (∀ (i : Nat) (c : Course), WEEKDAY_INDEX.lookup c.day = none →
        eventLines ps (baseMonday startDate) weeks (resolveHolidays holidays) i c = [])
    ∧ (icsLines ps courses startDate weeks tz holidays).countP
          (fun s => s == "BEGIN:VEVENT")
        = courses.countP (fun c => (WEEKDAY_INDEX.lookup c.day).isSome) := by
  constructor
  · intro i c h
    simp [eventLines, h]
  · unfold icsLines
    rw [List.countP_append, List.countP_append, countP_headerLines, countP_icsBody]
    have hperm : (sortCourses courses).Perm courses := List.mergeSort_perm courses _
    rw [hperm.countP_eq]
    simp

/-- Closed instance of the skip part of `unknown_weekday_skipped`. -/
theorem unknown_weekday_skipped_witness :
    eventLines psW (baseMonday 1) 1 (resolveHolidays (some [])) 0 courseUnknownW = [] :=
  (unknown_weekday_skipped psW [] 1 1 "UTC" (some [])).1 0 courseUnknownW (by decide)

theorem ptLt_trans {a b c : PTime} (h1 : ptLt a b) (h2 : ptLt b c) : ptLt a c := by
  obtain ⟨x1, y1, z1⟩ := a
  obtain ⟨x2, y2, z2⟩ := b
  obtain ⟨x3, y3, z3⟩ := c
  unfold ptLt at h1 h2 ⊢
  omega

theorem ptLt_trichotomy (a b : PTime) : ptLt a b ∨ a = b ∨ ptLt b a := by
  obtain ⟨x1, y1, z1⟩ := a
  obtain ⟨x2, y2, z2⟩ := b
  unfold ptLt
  simp only [PTime.mk.injEq]
  omega

theorem courseKeyLe_trans (a b c : Course) (h1 : courseKeyLe a b)
    (h2 : courseKeyLe b c) : courseKeyLe a c := by
  unfold courseKeyLe at h1 h2 ⊢
  rcases h1 with h1 | ⟨e1, h1⟩ <;> rcases h2 with h2 | ⟨e2, h2⟩
  · exact Or.inl (lt_trans h1 h2)
  · exact Or.inl (by rw [← e2]; exact h1)
  · exact Or.inl (by rw [e1]; exact h2)
  · refine Or.inr ⟨e1.trans e2, ?_⟩
    rcases h1 with h1 | ⟨f1, h1⟩ <;> rcases h2 with h2 | ⟨f2, h2⟩
    · exact Or.inl (ptLt_trans h1 h2)
    · exact Or.inl (by rw [← f2]; exact h1)
    · exact Or.inl (by rw [f1]; exact h2)
    · exact Or.inr ⟨f1.trans f2, le_trans h1 h2⟩

theorem courseKeyLe_total (a b : Course) : courseKeyLe a b ∨ courseKeyLe b a := by
  unfold courseKeyLe
  rcases lt_trichotomy a.day b.day with h | h | h
  · exact Or.inl (Or.inl h)
  · rcases ptLt_trichotomy a.start b.start with h' | h' | h'
    · exact Or.inl (Or.inr ⟨h, Or.inl h'⟩)
    · rcases le_total a.title b.title with h'' | h''
      · exact Or.inl (Or.inr ⟨h, Or.inr ⟨h', h''⟩⟩)
      · exact Or.inr (Or.inr ⟨h.symm, Or.inr ⟨h'.symm, h''⟩⟩)
    · exact Or.inr (Or.inr ⟨h.symm, Or.inl h'⟩)
  · exact Or.inr (Or.inl h)

/-- **C3.** Before emission the generator sorts the sessions by the key
`(day, start, title)` (Python tuple comparison: day-name string, then start
time, then title): the sorted list is a permutation of the input, pairwise
ordered under the key, and the output's event blocks are emitted by folding
over exactly that sorted list — so identical input always produces the same
block order. -/
theorem deterministic_sorted_output (ps : GenParams) (courses : List Course)
    (startDate weeks : Nat) (tz : String)
    (holidays : Option (List (Nat × Nat))) :
    (sortCourses courses).Perm courses
    ∧ (sortCourses courses).Pairwise courseKeyLe
    ∧ icsLines ps courses startDate weeks tz holidays
        = headerLines tz
          ++ (icsBody ps (baseMonday startDate) weeks (resolveHolidays holidays)
                (sortCourses courses) 0).1
          ++ ["END:VCALENDAR"] := by
  refine ⟨List.mergeSort_perm courses _, ?_, rfl⟩
  have trans : ∀ a b c : Course,
      decide (courseKeyLe a b) = true → decide (courseKeyLe b c) = true →
      decide (courseKeyLe a c) = true := by
    intro a b c h1 h2
    rw [decide_eq_true_iff] at h1 h2 ⊢
    exact courseKeyLe_trans a b c h1 h2
  have total : ∀ a b : Course,
      (decide (courseKeyLe a b) || decide (courseKeyLe b a)) = true := by
    intro a b
    rcases courseKeyLe_total a b with h | h <;> simp [h]
  have hp := List.sorted_mergeSort trans total courses
  exact hp.imp (fun h => of_decide_eq_true h)

theorem digit_facts (x : Char) (hx : x.isDigit = true) :
    x ≠ '–' ∧ x ≠ '-' ∧ x ≠ ':' ∧ x.isWhitespace = false := by
  refine ⟨?_, ?_, ?_, ?_⟩
  · intro h; rw [h] at hx; exact absurd hx (by decide)
  · intro h; rw [h] at hx; exact absurd hx (by decide)
  · intro h; rw [h] at hx; exact absurd hx (by decide)
  · by_contra hw
    have hw' : x.isWhitespace = true := by
      revert hw; cases x.isWhitespace <;> simp
    have hcases : x = ' ' ∨ x = '\t' ∨ x = '\r' ∨ x = '\n' := by
      simp only [Char.isWhitespace, Bool.or_eq_true, decide_eq_true_eq] at hw'
      tauto
    rcases hcases with h | h | h | h <;> (rw [h] at hx; exact absurd hx (by decide))

theorem split_no_sep (sep : Char) :
    ∀ l : List Char, sep ∉ l → splitOnChar sep l = [l] := by
  intro l
  induction l with
  | nil => intro _; rfl
  | cons c r ih =>
    intro h
    have hc : ¬(c = sep) := fun e => h (e ▸ List.mem_cons_self c r)
    simp only [splitOnChar, if_neg hc]
    rw [ih (fun hm => h (List.mem_cons_of_mem _ hm))]

theorem split_single_sep (sep : Char) :
    ∀ l1 l2 : List Char, sep ∉ l1 → sep ∉ l2 →
      splitOnChar sep (l1 ++ sep :: l2) = [l1, l2] := by
  intro l1
  induction l1 with
  | nil =>
    intro l2 _ h2
    simp only [List.nil_append, splitOnChar, if_pos rfl]
    rw [split_no_sep sep l2 h2]
    simp
  | cons c r ih =>
    intro l2 h1 h2
    have hc : ¬(c = sep) := fun e => h1 (e ▸ List.mem_cons_self c r)
    simp only [List.cons_append, splitOnChar, if_neg hc, List.append_eq]
    rw [ih l2 (fun hm => h1 (List.mem_cons_of_mem _ hm)) h2]

theorem stripChars_of_no_ws (l : List Char)
    (h : ∀ c ∈ l, c.isWhitespace = false) : stripChars l = l := by
  unfold stripChars
  have h1 : l.dropWhile Char.isWhitespace = l := by
    cases l with
    | nil => rfl
    | cons c r =>
      rw [List.dropWhile_cons_of_neg]
      simp [h c (List.mem_cons_self c r)]
  rw [h1]
  have h2 : l.reverse.dropWhile Char.isWhitespace = l.reverse := by
    cases hr : l.reverse with
    | nil => rfl
    | cons c r =>
      rw [List.dropWhile_cons_of_neg]
      have hm : c ∈ l.reverse := hr ▸ List.mem_cons_self c r
      simp [h c (List.mem_reverse.mp hm)]
  rw [h2, List.reverse_reverse]

theorem parseHM_two_digit (a b c d : Char)
    (ha : a.isDigit = true) (hb : b.isDigit = true)
    (hc : c.isDigit = true) (hd : d.isDigit = true)
    (hv1 : digitsToNat [a, b] ≤ 23) (hv2 : digitsToNat [c, d] ≤ 59) :
    parseHM [a, b, ':', c, d] = some ⟨digitsToNat [a, b], digitsToNat [c, d], 0⟩ := by
  unfold parseHM
  have hsplit : splitOnChar ':' [a, b, ':', c, d] = [[a, b], [c, d]] := by
    have e : [a, b, ':', c, d] = [a, b] ++ ':' :: [c, d] := rfl
    rw [e]
    apply split_single_sep
    · intro hm
      rcases List.mem_pair.mp hm with h | h
      · exact (digit_facts a ha).2.2.1 h.symm
      · exact (digit_facts b hb).2.2.1 h.symm
    · intro hm
      rcases List.mem_pair.mp hm with h | h
      · exact (digit_facts c hc).2.2.1 h.symm
      · exact (digit_facts d hd).2.2.1 h.symm
  rw [hsplit]
  show (if ([a, b] ≠ [] ∧ [a, b].length ≤ 2 ∧ [a, b].all Char.isDigit = true
        ∧ [c, d] ≠ [] ∧ [c, d].length ≤ 2 ∧ [c, d].all Char.isDigit = true) then
      if digitsToNat [a, b] ≤ 23 ∧ digitsToNat [c, d] ≤ 59 then
        some (PTime.mk (digitsToNat [a, b]) (digitsToNat [c, d]) 0)
      else none
    else none) = some (PTime.mk (digitsToNat [a, b]) (digitsToNat [c, d]) 0)
  rw [if_pos (by simp [ha, hb, hc, hd]), if_pos ⟨hv1, hv2⟩]

/-- **C4 counterexample.** `"13:00-09:00"` is of the valid
`HH:MM`-separator-`HH:MM` form, yet parsing returns a pair with
`start > end` — the claimed `start < end` property fails. -/
theorem time_range_order_violated :
    parse_time_range "13:00-09:00" = .ok (⟨13, 0, 0⟩, ⟨9, 0, 0⟩)
    ∧ ¬ ptLt ⟨13, 0, 0⟩ ⟨9, 0, 0⟩ :=
  ⟨rfl, by decide⟩

/-- **C4 (amended).** For every input of the valid form — two digits, a
colon, two digits, an en dash or hyphen, then the same again, with in-range
hour and minute values — `parse_time_range` succeeds and returns exactly the
two denoted times, in source order.  (The originally claimed `start < end`
does not hold for every such input, as `time_range_order_violated` shows; it
holds exactly when the first denoted time is earlier.) -/
theorem parse_time_range_valid_form
    (a b c d e f g h sep : Char)
    (hsep : sep = '–' ∨ sep = '-')
    (ha : a.isDigit = true) (hb : b.isDigit = true) (hc : c.isDigit = true)
    (hd : d.isDigit = true) (he : e.isDigit = true) (hf : f.isDigit = true)
    (hg : g.isDigit = true) (hh : h.isDigit = true)
    (hv1 : digitsToNat [a, b] ≤ 23) (hv2 : digitsToNat [c, d] ≤ 59)
    (hv3 : digitsToNat [e, f] ≤ 23) (hv4 : digitsToNat [g, h] ≤ 59) :
    parse_time_range ⟨[a, b, ':', c, d, sep, e, f, ':', g, h]⟩
      = .ok (⟨digitsToNat [a, b], digitsToNat [c, d], 0⟩,
             ⟨digitsToNat [e, f], digitsToNat [g, h], 0⟩) := by
  have hnws : ∀ x ∈ [a, b, ':', c, d], x.isWhitespace = false := by
    intro x hx
    simp only [List.mem_cons, List.not_mem_nil, or_false] at hx
    rcases hx with h' | h' | h' | h' | h' <;> rw [h']
    · exact (digit_facts a ha).2.2.2
    · exact (digit_facts b hb).2.2.2
    · decide
    · exact (digit_facts c hc).2.2.2
    · exact (digit_facts d hd).2.2.2
  have hnws2 : ∀ x ∈ [e, f, ':', g, h], x.isWhitespace = false := by
    intro x hx
    simp only [List.mem_cons, List.not_mem_nil, or_false] at hx
    rcases hx with h' | h' | h' | h' | h' <;> rw [h']
    · exact (digit_facts e he).2.2.2
    · exact (digit_facts f hf).2.2.2
    · decide
    · exact (digit_facts g hg).2.2.2
    · exact (digit_facts h hh).2.2.2
  have hparse1 := parseHM_two_digit a b c d ha hb hc hd hv1 hv2
  have hparse2 := parseHM_two_digit e f g h he hf hg hh hv3 hv4
  unfold parse_time_range
  rcases hsep with rfl | rfl
  · have e1 : ([a, b, ':', c, d, '–', e, f, ':', g, h] : List Char)
        = [a, b, ':', c, d] ++ '–' :: [e, f, ':', g, h] := rfl
    rw [e1]
    have hcont : (([a, b, ':', c, d] ++ '–' :: [e, f, ':', g, h]).contains '–')
        = true := by
      simp [List.contains, List.elem_eq_mem]
    rw [if_pos hcont]
    have hsplit : splitOnChar '–' ([a, b, ':', c, d] ++ '–' :: [e, f, ':', g, h])
        = [[a, b, ':', c, d], [e, f, ':', g, h]] := by
      apply split_single_sep
      · intro hm
        simp only [List.mem_cons, List.not_mem_nil, or_false] at hm
        rcases hm with h' | h' | h' | h' | h'
        · exact (digit_facts a ha).1 h'.symm
        · exact (digit_facts b hb).1 h'.symm
        · exact absurd h' (by decide)
        · exact (digit_facts c hc).1 h'.symm
        · exact (digit_facts d hd).1 h'.symm
      · intro hm
        simp only [List.mem_cons, List.not_mem_nil, or_false] at hm
        rcases hm with h' | h' | h' | h' | h'
        · exact (digit_facts e he).1 h'.symm
        · exact (digit_facts f hf).1 h'.symm
        · exact absurd h' (by decide)
        · exact (digit_facts g hg).1 h'.symm
        · exact (digit_facts h hh).1 h'.symm
    rw [hsplit]
    simp only [List.map_cons, List.map_nil, stripChars_of_no_ws _ hnws,
      stripChars_of_no_ws _ hnws2]
    show (match parseHM [a, b, ':', c, d], parseHM [e, f, ':', g, h] with
          | some t1, some t2 => Except.ok (t1, t2)
          | _, _ => Except.error PyErr.valueError)
        = Except.ok (⟨digitsToNat [a, b], digitsToNat [c, d], 0⟩,
                     ⟨digitsToNat [e, f], digitsToNat [g, h], 0⟩)
    rw [hparse1, hparse2]
  · have hndash : ∀ x ∈ [a, b, ':', c, d, '-', e, f, ':', g, h], x ≠ '–' := by
      intro x hx
      simp only [List.mem_cons, List.not_mem_nil, or_false] at hx
      rcases hx with h' | h' | h' | h' | h' | h' | h' | h' | h' | h' | h' <;> rw [h']
      · exact (digit_facts a ha).1
      · exact (digit_facts b hb).1
      · decide
      · exact (digit_facts c hc).1
      · exact (digit_facts d hd).1
      · decide
      · exact (digit_facts e he).1
      · exact (digit_facts f hf).1
      · decide
      · exact (digit_facts g hg).1
      · exact (digit_facts h hh).1
    have e1 : ([a, b, ':', c, d, '-', e, f, ':', g, h] : List Char)
        = [a, b, ':', c, d] ++ '-' :: [e, f, ':', g, h] := rfl
    have hcont : ¬((([a, b, ':', c, d] ++ '-' :: [e, f, ':', g, h]).contains '–')
        = true) := by
      simp only [List.contains, List.elem_eq_mem, decide_eq_true_eq]
      intro hm
      rw [← e1] at hm
      exact hndash '–' hm rfl
    rw [e1, if_neg hcont]
    have hsplit : splitOnChar '-' ([a, b, ':', c, d] ++ '-' :: [e, f, ':', g, h])
        = [[a, b, ':', c, d], [e, f, ':', g, h]] := by
      apply split_single_sep
      · intro hm
        simp only [List.mem_cons, List.not_mem_nil, or_false] at hm
        rcases hm with h' | h' | h' | h' | h'
        · exact (digit_facts a ha).2.1 h'.symm
        · exact (digit_facts b hb).2.1 h'.symm
        · exact absurd h' (by decide)
        · exact (digit_facts c hc).2.1 h'.symm
        · exact (digit_facts d hd).2.1 h'.symm
      · intro hm
        simp only [List.mem_cons, List.not_mem_nil, or_false] at hm
        rcases hm with h' | h' | h' | h' | h'
        · exact (digit_facts e he).2.1 h'.symm
        · exact (digit_facts f hf).2.1 h'.symm
        · exact absurd h' (by decide)
        · exact (digit_facts g hg).2.1 h'.symm
        · exact (digit_facts h hh).2.1 h'.symm
    rw [hsplit]
    simp only [List.map_cons, List.map_nil, stripChars_of_no_ws _ hnws,
      stripChars_of_no_ws _ hnws2]
    show (match parseHM [a, b, ':', c, d], parseHM [e, f, ':', g, h] with
          | some t1, some t2 => Except.ok (t1, t2)
          | _, _ => Except.error PyErr.valueError)
        = Except.ok (⟨digitsToNat [a, b], digitsToNat [c, d], 0⟩,
                     ⟨digitsToNat [e, f], digitsToNat [g, h], 0⟩)
    rw [hparse1, hparse2]

/-- Closed instance of `parse_time_range_valid_form` at `"09:00–11:00"`. -/
theorem parse_time_range_valid_form_witness :
    parse_time_range ⟨['0', '9', ':', '0', '0', '–', '1', '1', ':', '0', '0']⟩
      = .ok (⟨digitsToNat ['0', '9'], digitsToNat ['0', '0'], 0⟩,
             ⟨digitsToNat ['1', '1'], digitsToNat ['0', '0'], 0⟩) :=
  parse_time_range_valid_form '0' '9' '0' '0' '1' '1' '0' '0' '–'
    (Or.inl rfl) (by decide) (by decide) (by decide) (by decide) (by decide)
    (by decide) (by decide) (by decide) (by decide) (by decide) (by decide)
    (by decide)

set_option maxRecDepth 16384

/-- **C10.** Omitting the holidays argument (`None`) is not equivalent to an
empty holiday list: `None` resolves to the fixed default range 2025-12-23
through 2026-01-06 inclusive, so occurrence dates inside that range count as
holidays and produce `EXDATE` lines, while an explicitly empty list marks no
date a holiday and produces no `EXDATE` line.  The concrete parts evaluate a
Monday 09:00 session over three weeks from 2025-12-22: the two calendars
differ, the default-holiday run carries the `EXDATE` for 2025-12-29, and the
empty-list run carries no `EXDATE` line at all. -/
theorem default_holidays_not_empty_list :
    (∀ d : Nat, is_holiday (resolveHolidays none) d
        = decide (toOrdinal 2025 12 23 ≤ d ∧ d ≤ toOrdinal 2026 1 6))
    ∧ (∀ d : Nat, is_holiday (resolveHolidays (some [])) d = false)
    ∧ generate_ics psW [courseMondayW] (toOrdinal 2025 12 22) 3 "Europe/Athens" none
        ≠ generate_ics psW [courseMondayW] (toOrdinal 2025 12 22) 3 "Europe/Athens"
            (some [])
    ∧ ("EXDATE:" ++ exdateStamp (toOrdinal 2025 12 29) ⟨9, 0, 0⟩)
        ∈ icsLines psW [courseMondayW] (toOrdinal 2025 12 22) 3 "Europe/Athens" none
    ∧ (icsLines psW [courseMondayW] (toOrdinal 2025 12 22) 3 "Europe/Athens"
        (some [])).all (fun l => !(("EXDATE:" : String).data.isPrefixOf l.data))
        = true := by
  have hs : sortCourses [courseMondayW] = [courseMondayW] := by
    simp [sortCourses]
  refine ⟨?_, ?_, ?_, ?_, ?_⟩
  · intro d
    simp [is_holiday, resolveHolidays]
  · intro d
    simp [is_holiday, resolveHolidays]
  · simp only [generate_ics, icsLines, hs]
    decide
  · simp only [icsLines, hs]
    decide
  · simp only [icsLines, hs]
    decide

end UniSchedule
